import Mathlib

/-
  Verification development for the SAGA solver module `copt/stochastic.py`
  (functions `minimize_SAGA`, `_support_matrix`, `_factory_sparse_SAGA` and
  the inner closure `epoch_iteration_template`).

  Modelling conventions:
  * floating-point scalars are modelled as rationals (ℚ);
  * numpy vectors are modelled as total functions `ℕ → ℚ` (in-place writes
    become `Function.update`);
  * the CSR matrix is a record of its `data`, `indices` and `indptr` arrays;
  * `np.random.shuffle` is modelled by an oracle `perms : ℕ → List ℕ` giving
    the visiting order of each epoch;
  * `np.linalg.norm` is modelled by an abstract function `nrm` captured in
    the kernel parameters (the claims under study hold for every `nrm`);
  * `np.inf` (the initial certificate) is modelled as `none : Option ℚ`;
  * the thread pool is modelled by running the workers sequentially in
    job-id order, threading the shared buffers through: this is one
    admissible serialisation of the lock-free design, and the claims proved
    at orchestrator level do not depend on the interleaving;
  * `raise NotImplementedError` is modelled as `Except.error ()`.
-/

namespace CoptStochastic

/-- CSR sparse matrix, as the triple of arrays held by `scipy.sparse.csr_matrix`. -/
structure CSRMat where
  data : List ℚ
  indices : List ℕ
  indptr : List ℕ

/-- Nonzero entries of row `i`: the pairs `(A_indices[j], A_data[j])` for
`j` in `[A_indptr[i], A_indptr[i+1])`, exactly the ranges scanned by the
inner loops of the source. -/
def CSRMat.row (A : CSRMat) (i : ℕ) : List (ℕ × ℚ) :=
  ((A.indices.zip A.data).drop (A.indptr.getD i 0)).take
    (A.indptr.getD (i + 1) 0 - A.indptr.getD i 0)

/-- Column-index slices of each row of a CSR index structure: element `i` is
the list `A_indices[A_indptr[i] : A_indptr[i+1]]`, for `i` ranging over
`range(A_indptr.size - 1)` as in `_support_matrix`. -/
def csrRows (indices indptr : List ℕ) : List (List ℕ) :=
  (List.range (indptr.length - 1)).map (fun i =>
    (indices.drop (indptr.getD i 0)).take (indptr.getD (i + 1) 0 - indptr.getD i 0))

/-- Inner scan of one row of `_support_matrix`: walk the row's column
indices; whenever the block `g_blocks[A_indices[j]]` has not been seen,
record it and mark it seen.  Returns the recorded blocks (in order) and the
updated `seen_blocks` array. -/
def rowScan (g_blocks : ℕ → ℕ) : List ℕ → (ℕ → ℕ) → List ℕ × (ℕ → ℕ)
  | [], seen => ([], seen)
  | c :: t, seen =>
      if seen (g_blocks c) = 0 then
        let r := rowScan g_blocks t (Function.update seen (g_blocks c) 1)
        (g_blocks c :: r.1, r.2)
      else rowScan g_blocks t seen

/-- Cleanup loop of `_support_matrix`: reset `seen_blocks` to zero at every
block recorded for the current row (`for j in range(BS_indptr[i], counter)`). -/
def clearRow : (ℕ → ℕ) → List ℕ → (ℕ → ℕ)
  | seen, [] => seen
  | seen, g :: t => clearRow (Function.update seen g 0) t

/-- Row loop of `_support_matrix`: process the rows in order, threading the
`seen_blocks` array through scan and cleanup; returns the per-row recorded
block lists and the final `seen_blocks`. -/
def buildSupport (g_blocks : ℕ → ℕ) : List (List ℕ) → (ℕ → ℕ) → List (List ℕ) × (ℕ → ℕ)
  | [], seen => ([], seen)
  | r :: rs, seen =>
      let rowRes := rowScan g_blocks r seen
      let cleaned := clearRow rowRes.2 rowRes.1
      let rest := buildSupport g_blocks rs cleaned
      (rowRes.1 :: rest.1, rest.2)

/-- Model of `_support_matrix(A_indices, A_indptr, g_blocks, n_blocks)`:
returns `(BS_data, BS_indices[:counter], BS_indptr)`.  `BS_data` is all
ones, `BS_indices` is the concatenation of the per-row recorded block
lists, and `BS_indptr` holds the cumulative counters (same length as
`A_indptr`).  The `n_blocks == 1` branch of the source is a no-op (`pass`). -/
def supportMatrix (A_indices A_indptr : List ℕ) (g_blocks : ℕ → ℕ) (n_blocks : ℕ) :
    List ℚ × List ℕ × List ℕ :=
  let rows := csrRows A_indices A_indptr
  let res := buildSupport g_blocks rows (fun _ => 0)
  let bsIndices := res.1.flatten
  let bsIndptr :=
    if A_indptr.length = 0 then []
    else List.scanl (fun a r => a + r.length) 0 res.1
  (List.replicate bsIndices.length (1 : ℚ), bsIndices, bsIndptr)

/-- Degree vector derivation of `_factory_sparse_SAGA`:
`d = BS.sum(0)` (with all-one data this is the number of occurrences of
each block in `BS_indices`), then `d[idx] = n_samples / d[idx]` on the
nonzero entries and `0` elsewhere. -/
def dVec (bsIndices : List ℕ) (n_samples : ℕ) : ℕ → ℚ :=
  fun j =>
    if bsIndices.count j = 0 then 0
    else (n_samples : ℚ) / (bsIndices.count j : ℚ)

/-- Loss object boundary (spec section 6): design matrix, targets,
regularisation strength, a Lipschitz estimate and the partial-gradient
oracle produced by `partial_gradient_factory`. -/
structure Loss where
  n_features : ℕ
  A : CSRMat
  b : ℕ → ℚ
  alpha : ℚ
  lipschitz : ℚ
  partial_gradient : ℚ → ℚ → ℚ

/-- Penalty object boundary: separability flag and the proximal operator
produced by `prox_factory`. -/
structure Penalty where
  is_separable : Bool
  prox : ℚ → ℚ → ℚ

/-- Modelled from the spec: `utils.DummyProx`, the default used when `g` is
`None`, is not under `src/`; the spec says the no-penalty default behaves as
the identity proximal operator and is a separable penalty. -/
def dummyProx : Penalty :=
  { is_separable := true, prox := fun v _ => v }

/-- Closure environment captured by `epoch_iteration_template` in
`_factory_sparse_SAGA`: the CSR matrix, targets, `alpha`, the two oracles,
the degree vector `d`, `n_samples`, and the norm used by the convergence
check (model of `np.linalg.norm`). -/
structure KernelParams where
  A : CSRMat
  b : ℕ → ℚ
  f_alpha : ℚ
  partial_gradient : ℚ → ℚ → ℚ
  prox : ℚ → ℚ → ℚ
  d : ℕ → ℚ
  n_samples : ℕ
  nrm : (ℕ → ℚ) → ℚ

/-- The kernel closure environment built by `_factory_sparse_SAGA` in the
separable case: identity block mapping `np.arange(n_features)`, block
support via `_support_matrix`, degree vector via `dVec`. -/
def factoryParams (f : Loss) (g : Penalty) (nrm : (ℕ → ℚ) → ℚ) : KernelParams :=
  { A := f.A, b := f.b, f_alpha := f.alpha,
    partial_gradient := f.partial_gradient, prox := g.prox,
    d := dVec (supportMatrix f.A.indices f.A.indptr (fun j => j) f.n_features).2.1
           (f.A.indptr.length - 1),
    n_samples := f.A.indptr.length - 1, nrm := nrm }

/-- Model of `_factory_sparse_SAGA(f, g)`.  When `g.is_separable` the block
mapping is `np.arange(n_features)` (the identity map on features), the block
support and the degree vector are built, and the kernel closure environment
is returned; otherwise `NotImplementedError` is raised. -/
def _factory_sparse_SAGA (f : Loss) (g : Penalty) (nrm : (ℕ → ℚ) → ℚ) :
    Except Unit KernelParams :=
  if g.is_separable then Except.ok (factoryParams f g nrm)
  else Except.error ()

/-- Shared mutable state of one worker plus its private locals:
`x`, `memory_gradient`, `gradient_average` and the stop flag are the shared
buffers; `x_old`, `cert` and the trace record are private to the worker.
`cert = none` models `np.inf`. -/
@[ext]
structure SagaState where
  x : ℕ → ℚ
  memory_gradient : ℕ → ℚ
  gradient_average : ℕ → ℚ
  x_old : ℕ → ℚ
  cert : Option ℚ
  stop : Bool
  trace_x : List (ℕ × (ℕ → ℚ))

/-- Body of the inner sample loop of `epoch_iteration_template` for one
sample `i`: prediction `p`, partial gradient, in-place coefficient updates
with the prox step, `gradient_average` accumulation, and the
`memory_gradient[i]` refresh, in source order. -/
def sampleStep (P : KernelParams) (step_size : ℚ) (s : SagaState) (i : ℕ) : SagaState :=
  let row := P.A.row i
  let p := row.foldl (fun acc ca => acc + s.x ca.1 * ca.2) 0
  let grad_i := P.partial_gradient p (P.b i)
  let mem_i := s.memory_gradient i
  let x1 := row.foldl (fun xv ca =>
      let incr := (grad_i - mem_i) * ca.2 +
        P.d ca.1 * (s.gradient_average ca.1 + P.f_alpha * xv ca.1)
      Function.update xv ca.1
        (P.prox (xv ca.1 - step_size * incr) (step_size * P.d ca.1))) s.x
  let ga1 := row.foldl (fun gv ca =>
      Function.update gv ca.1
        (gv ca.1 + (grad_i - s.memory_gradient i) * ca.2 / (P.n_samples : ℚ)))
    s.gradient_average
  { s with x := x1, gradient_average := ga1,
           memory_gradient := Function.update s.memory_gradient i grad_i }

/-- The sample loop of one epoch: `for i in sample_indices`, over the
epoch's shuffled order `perm`. -/
def sampleLoop (P : KernelParams) (step_size : ℚ) (perm : List ℕ) (s : SagaState) : SagaState :=
  perm.foldl (sampleStep P step_size) s

/-- Recompute loop of the `job_id == 1` role: build `grad_tmp` from zero by
accumulating `memory_gradient[i] * A_data[j] / n_samples` over the epoch's
sample order and each row's nonzero columns. -/
def recompute_grad_average (P : KernelParams) (mg : ℕ → ℚ) (perm : List ℕ) : ℕ → ℚ :=
  perm.foldl (fun gv i =>
      (P.A.row i).foldl (fun gv2 ca =>
          Function.update gv2 ca.1 (gv2 ca.1 + mg i * ca.2 / (P.n_samples : ℚ))) gv)
    (fun _ => 0)

/-- Convergence certificate of the `job_id == 0` role:
`norm(x - x_old) / step_size` on the state after the sample loop. -/
def epochCert (P : KernelParams) (step_size : ℚ) (s : SagaState) : ℚ :=
  P.nrm (fun j => s.x j - s.x_old j) / step_size

/-- One full epoch of `epoch_iteration_template`: the sample loop followed
by the role-specialised part (`job_id == 0`: trace record, certificate,
`x_old` refresh, stop-flag write; `job_id == 1`: gradient-average
recomputation; otherwise nothing). -/
def runEpoch (P : KernelParams) (step_size tol : ℚ) (job_id : ℕ) (trace : Bool)
    (perm : List ℕ) (it : ℕ) (s : SagaState) : SagaState :=
  let s1 := sampleLoop P step_size perm s
  if job_id = 0 then
    let s2 := if trace = true then { s1 with trace_x := s1.trace_x ++ [(it, s1.x)] } else s1
    let cert := epochCert P step_size s2
    let s3 := { s2 with cert := some cert, x_old := s2.x }
    if cert < tol then { s3 with stop := true } else s3
  else if job_id = 1 then
    { s1 with gradient_average := recompute_grad_average P s1.memory_gradient perm }
  else s1

/-- Epoch loop of `epoch_iteration_template`: `for it in range(1, max_iter)`
with the end-of-epoch `if stop_flag[0]: break`.  `itDone` is the last value
taken by `it` (0 if no epoch ran), and the third argument counts the
remaining iterations. -/
def epochLoopGo (P : KernelParams) (step_size tol : ℚ) (job_id : ℕ) (trace : Bool)
    (perms : ℕ → List ℕ) : ℕ → SagaState → ℕ → ℕ × SagaState
  | itDone, s, 0 => (itDone, s)
  | itDone, s, k + 1 =>
      let s2 := runEpoch P step_size tol job_id trace (perms (itDone + 1)) (itDone + 1) s
      if s2.stop then (itDone + 1, s2)
      else epochLoopGo P step_size tol job_id trace perms (itDone + 1) s2 k

/-- Worker-local initial state built at the top of
`epoch_iteration_template`: `x_old = x.copy()`, `cert = np.inf`, and the
initial trace record `trace_x[0, :] = x` when `job_id == 0 and trace`. -/
def init_saga_state (x memory_gradient gradient_average : ℕ → ℚ) (stop_flag : Bool)
    (job_id : ℕ) (trace : Bool) : SagaState :=
  { x := x, memory_gradient := memory_gradient, gradient_average := gradient_average,
    x_old := x, cert := none, stop := stop_flag,
    trace_x := if job_id = 0 ∧ trace = true then [(0, x)] else [] }

/-- Model of one call of `epoch_iteration_template(x, memory_gradient,
gradient_average, step_size, max_iter, job_id, tol, stop_flag, trace,
trace_x)`: returns the final `it` and the final state (the source returns
`(it, cert)`; the state carries `cert` and the shared buffers). -/
def epoch_iteration_template (P : KernelParams) (x memory_gradient gradient_average : ℕ → ℚ)
    (step_size : ℚ) (max_iter : ℕ) (job_id : ℕ) (tol : ℚ) (stop_flag : Bool)
    (trace : Bool) (perms : ℕ → List ℕ) : ℕ × SagaState :=
  epochLoopGo P step_size tol job_id trace perms 0
    (init_saga_state x memory_gradient gradient_average stop_flag job_id trace)
    (max_iter - 1)

/-- Run `k` consecutive epochs (no stop check), with epoch indices
`it+1, …, it+k`: the reference behaviour of the epoch loop when the stop
flag is never raised. -/
def runEpochsFrom (P : KernelParams) (step_size tol : ℚ) (job_id : ℕ) (trace : Bool)
    (perms : ℕ → List ℕ) : ℕ → ℕ → SagaState → SagaState
  | _, 0, s => s
  | it, k + 1, s =>
      runEpochsFrom P step_size tol job_id trace perms (it + 1) k
        (runEpoch P step_size tol job_id trace (perms (it + 1)) (it + 1) s)

/-- Observable allocation/launch events of `minimize_SAGA`, in source
order, used to localise where the unsupported-configuration error fires. -/
inductive Ev where
  | allocX
  | allocMemGrad
  | allocGradAvg
  | allocTraceX
  | allocStopFlag
  | launchWorker (job_id : ℕ)
  | raiseNotImplemented
  deriving DecidableEq

/-- Allocation events of buffers the spec's data model declares shared
(`x`, `memory_gradient`, `gradient_average`, the trace buffer, the stop flag). -/
def isSharedAlloc : Ev → Bool
  | Ev.allocX => true
  | Ev.allocMemGrad => true
  | Ev.allocGradAvg => true
  | Ev.allocTraceX => true
  | Ev.allocStopFlag => true
  | _ => false

/-- Worker-launch events. -/
def isLaunch : Ev → Bool
  | Ev.launchWorker _ => true
  | _ => false

/-- The fields of `scipy.optimize.OptimizeResult` that `minimize_SAGA`
fills and the claims mention. -/
structure OptResult where
  x : ℕ → ℚ
  success : Bool
  nit : ℕ
  certificate : Option ℚ

/-- The comparison `certificate < tol` of the source, with
`certificate = np.inf` (modelled `none`) comparing false. -/
def certLt : Option ℚ → ℚ → Bool
  | none, _ => false
  | some c, t => decide (c < t)

/-- The shared buffers threaded between the workers. -/
structure Shared where
  x : ℕ → ℚ
  memory_gradient : ℕ → ℚ
  gradient_average : ℕ → ℚ
  stop : Bool

/-- Project a worker's final state onto the shared buffers. -/
def SagaState.toShared (s : SagaState) : Shared :=
  { x := s.x, memory_gradient := s.memory_gradient,
    gradient_average := s.gradient_average, stop := s.stop }

/-- Initial value of the shared stop flag allocated by `minimize_SAGA`
(`stop_flag = np.zeros(1, dtype=np.bool)`). -/
def minimizeStopInit : Bool := false

/-- Initial decision vector of `minimize_SAGA`: `np.zeros(f.n_features)` when
`x0` is absent, a copy of `x0` otherwise. -/
def initX : Option (ℕ → ℚ) → ℕ → ℚ
  | none => fun _ => 0
  | some v => v

/-- Step-size default of `minimize_SAGA`:
`1 / (3 * f.lipschitz_constant())` when the argument is negative. -/
def stepOf (step_size : ℚ) (f : Loss) : ℚ :=
  if step_size < 0 then 1 / (3 * f.lipschitz) else step_size

/-- The shared buffers as allocated by `minimize_SAGA`: the initial `x`,
zero `memory_gradient` and `gradient_average`, stop flag false. -/
def sharedInit (x : ℕ → ℚ) : Shared :=
  { x := x, memory_gradient := fun _ => 0, gradient_average := fun _ => 0,
    stop := minimizeStopInit }

/-- The worker pool of `minimize_SAGA`, serialised in job-id order: job 0
first, then jobs `1, …, n_jobs - 1`, threading the shared buffers.  Returns
job 0's `(it, cert)` (the pair read from `futures[0].result()`) and the
shared buffers after all workers join.  Models calls with `n_jobs ≥ 1`. -/
def runWorkers (P : KernelParams) (step_size tol : ℚ) (max_iter : ℕ) (trace : Bool)
    (perms : ℕ → ℕ → List ℕ) (n_jobs : ℕ) (sh : Shared) : (ℕ × Option ℚ) × Shared :=
  let r0 := epoch_iteration_template P sh.x sh.memory_gradient sh.gradient_average
    step_size max_iter 0 tol sh.stop trace (perms 0)
  let shAfter := (List.range (n_jobs - 1)).foldl
    (fun acc k =>
      (epoch_iteration_template P acc.x acc.memory_gradient acc.gradient_average
        step_size max_iter (k + 1) tol acc.stop trace (perms (k + 1))).2.toShared)
    r0.2.toShared
  ((r0.1, r0.2.cert), shAfter)

/-- Model of `minimize_SAGA(f, g, x0, step_size, n_jobs, max_iter, tol,
verbose, trace)`: initialise `x`, derive the step size, default the
penalty, call the factory (which may raise), allocate the shared buffers,
run the workers, and assemble the result from job 0's `(n_iter,
certificate)`.  Also returns the event list and the final shared buffers. -/
def minimize_SAGA (f : Loss) (g : Option Penalty) (x0 : Option (ℕ → ℚ))
    (step_size : ℚ) (n_jobs : ℕ) (max_iter : ℕ) (tol : ℚ) (trace : Bool)
    (nrm : (ℕ → ℚ) → ℚ) (perms : ℕ → ℕ → List ℕ) :
    List Ev × Except Unit (OptResult × Shared) :=
  let x := initX x0
  let step := stepOf step_size f
  let gg := g.getD dummyProx
  match _factory_sparse_SAGA f gg nrm with
  | Except.error e => ([Ev.allocX, Ev.raiseNotImplemented], Except.error e)
  | Except.ok P =>
      let res := runWorkers P step tol max_iter trace perms n_jobs (sharedInit x)
      let evs := [Ev.allocX, Ev.allocMemGrad, Ev.allocGradAvg, Ev.allocTraceX,
        Ev.allocStopFlag] ++ (List.range n_jobs).map Ev.launchWorker
      let certificate := res.1.2
      (evs, Except.ok
        ({ x := res.2.x, success := certLt certificate tol, nit := res.1.1,
           certificate := certificate }, res.2))

/-- Deduplication keeping the first occurrence, following the spec's words:
the deduplicated, order-of-first-occurrence list of blocks touched by a
row (auxiliary, carrying the list of already-seen elements). -/
def dedupFOAux (seenL : List ℕ) : List ℕ → List ℕ
  | [] => []
  | a :: t => if a ∈ seenL then dedupFOAux seenL t else a :: dedupFOAux (a :: seenL) t

/-- Deduplication keeping the first occurrence (spec-side definition for
the block-support contract). -/
def dedupFirstOccurrence (l : List ℕ) : List ℕ :=
  dedupFOAux [] l

/-- Per-sample update written from the words of claim C1: the prediction is
`Σ_j A[i,j] * x[j]`, and every read in the coordinate updates
(`x[j]`, `gradient_average[j]`, `mem_i`) is taken from the state at the
start of the sample visit. -/
def sampleStepFromSpec (P : KernelParams) (step_size : ℚ) (s : SagaState) (i : ℕ) :
    SagaState :=
  let row := P.A.row i
  let p := row.foldl (fun acc ca => acc + ca.2 * s.x ca.1) 0
  let grad_i := P.partial_gradient p (P.b i)
  let mem_i := s.memory_gradient i
  let x1 := row.foldl (fun xv ca =>
      let incr := (grad_i - mem_i) * ca.2 +
        P.d ca.1 * (s.gradient_average ca.1 + P.f_alpha * s.x ca.1)
      Function.update xv ca.1
        (P.prox (s.x ca.1 - step_size * incr) (step_size * P.d ca.1))) s.x
  let ga1 := row.foldl (fun gv ca =>
      Function.update gv ca.1 (gv ca.1 + (grad_i - mem_i) * ca.2 / (P.n_samples : ℚ)))
    s.gradient_average
  { s with x := x1, gradient_average := ga1,
           memory_gradient := Function.update s.memory_gradient i grad_i }

/-- Gradient average written from the words of claim C6: for each feature
`jj`, the sum over all samples `i` and all nonzero columns of row `i` of
`memory_gradient[i] * A[i,j] / n_samples`. -/
def grad_average_from_spec (P : KernelParams) (mg : ℕ → ℚ) (jj : ℕ) : ℚ :=
  ((List.range P.n_samples).map (fun i =>
      ((P.A.row i).map (fun ca =>
          if ca.1 = jj then mg i * ca.2 / (P.n_samples : ℚ) else 0)).sum)).sum

/-- Number of samples (rows) whose column indices touch block `j`
(spec-side count for the degree-vector contract, identity block mapping). -/
def touchCount (rows : List (List ℕ)) (j : ℕ) : ℕ :=
  rows.countP (fun r => decide (j ∈ r))

/- Concrete instances used by the witnesses. -/

/-- A concrete 2×2 CSR matrix: row 0 has entries at columns 0 and 1, row 1
at column 1. -/
def Ac : CSRMat :=
  { data := [2, 1, 3], indices := [0, 1, 1], indptr := [0, 2, 3] }

/-- Concrete loss on `Ac`. -/
def fc : Loss :=
  { n_features := 2, A := Ac, b := fun _ => 1, alpha := 0, lipschitz := 1,
    partial_gradient := fun p bi => p - bi }

/-- Concrete separable penalty (identity prox). -/
def gSepC : Penalty :=
  { is_separable := true, prox := fun v _ => v }

/-- Concrete non-separable penalty. -/
def gNonSepC : Penalty :=
  { is_separable := false, prox := fun v _ => v }

/-- Concrete norm model. -/
def nrmc : (ℕ → ℚ) → ℚ := fun _ => 0

/-- Concrete kernel parameters (what `_factory_sparse_SAGA fc gSepC nrmc`
returns). -/
def P3c : KernelParams :=
  { A := fc.A, b := fc.b, f_alpha := fc.alpha,
    partial_gradient := fc.partial_gradient, prox := gSepC.prox,
    d := dVec (supportMatrix fc.A.indices fc.A.indptr (fun j => j) fc.n_features).2.1
           (fc.A.indptr.length - 1),
    n_samples := fc.A.indptr.length - 1, nrm := nrmc }

/-- Concrete initial worker state. -/
def s0c : SagaState :=
  { x := fun _ => 0, memory_gradient := fun _ => 0, gradient_average := fun _ => 0,
    x_old := fun _ => 0, cert := none, stop := false, trace_x := [] }

/-- Concrete state with the stop flag already raised. -/
def sTrueC : SagaState :=
  { s0c with stop := true }

/- Lemmas on the block-support builder. -/

theorem dedupFOAux_mem (x : ℕ) (l : List ℕ) : ∀ seenL : List ℕ,
    x ∈ dedupFOAux seenL l ↔ x ∈ l ∧ x ∉ seenL := by
  induction l with
  | nil => intro s; simp [dedupFOAux]
  | cons a t ih =>
    intro s
    by_cases h : a ∈ s
    · simp only [dedupFOAux, if_pos h, ih s, List.mem_cons]
      constructor
      · rintro ⟨hx, hn⟩
        exact ⟨Or.inr hx, hn⟩
      · rintro ⟨hd, hn⟩
        rcases hd with rfl | hx
        · exact absurd h hn
        · exact ⟨hx, hn⟩
    · simp only [dedupFOAux, if_neg h, List.mem_cons, ih (a :: s)]
      constructor
      · rintro (rfl | ⟨hx, hn⟩)
        · exact ⟨Or.inl rfl, h⟩
        · exact ⟨Or.inr hx, fun hc => hn (Or.inr hc)⟩
      · rintro ⟨hd, hn⟩
        by_cases hxa : x = a
        · exact Or.inl hxa
        · right
          rcases hd with rfl | hx
          · exact absurd rfl hxa
          · refine ⟨hx, fun hc => ?_⟩
            rcases hc with h1 | h2
            · exact hxa h1
            · exact hn h2

theorem dedupFOAux_nodup (l : List ℕ) : ∀ seenL : List ℕ,
    (dedupFOAux seenL l).Nodup := by
  induction l with
  | nil => intro s; simp [dedupFOAux]
  | cons a t ih =>
    intro s
    by_cases h : a ∈ s
    · simpa [dedupFOAux, if_pos h] using ih s
    · simp only [dedupFOAux, if_neg h]
      refine List.nodup_cons.mpr ⟨?_, ih (a :: s)⟩
      intro hc
      exact ((dedupFOAux_mem a t (a :: s)).mp hc).2 (List.mem_cons_self a s)

theorem rowScan_fst_eq (gb : ℕ → ℕ) (cs : List ℕ) : ∀ (s : ℕ → ℕ) (seenL : List ℕ),
    (∀ g, s g = 0 ↔ g ∉ seenL) →
    (rowScan gb cs s).1 = dedupFOAux seenL (cs.map gb) := by
  induction cs with
  | nil => intro s seenL _; simp [rowScan, dedupFOAux]
  | cons c t ih =>
    intro s seenL hinv
    by_cases h : s (gb c) = 0
    · have hns : gb c ∉ seenL := (hinv (gb c)).mp h
      simp only [rowScan, if_pos h, List.map_cons, dedupFOAux, if_neg hns]
      refine congrArg (List.cons (gb c)) ?_
      refine ih (Function.update s (gb c) 1) (gb c :: seenL) ?_
      intro g
      by_cases hg : g = gb c
      · subst hg
        simp [Function.update_same]
      · rw [Function.update_noteq hg]
        simp only [List.mem_cons, not_or]
        constructor
        · exact fun h0 => ⟨hg, (hinv g).mp h0⟩
        · exact fun hn => (hinv g).mpr hn.2
    · have hmem : gb c ∈ seenL := by
        by_contra hns
        exact h ((hinv (gb c)).mpr hns)
      simp only [rowScan, if_neg h, List.map_cons, dedupFOAux, if_pos hmem]
      exact ih s seenL hinv

theorem rowScan_snd (gb : ℕ → ℕ) (cs : List ℕ) : ∀ (s : ℕ → ℕ) (g : ℕ),
    (rowScan gb cs s).2 g = if g ∈ (rowScan gb cs s).1 then 1 else s g := by
  induction cs with
  | nil => intro s g; simp [rowScan]
  | cons c t ih =>
    intro s g
    by_cases h : s (gb c) = 0
    · simp only [rowScan, if_pos h]
      rw [ih (Function.update s (gb c) 1) g]
      by_cases hg : g ∈ (rowScan gb t (Function.update s (gb c) 1)).1
      · simp [hg, List.mem_cons]
      · simp only [if_neg hg]
        by_cases hgc : g = gb c
        · subst hgc
          simp [Function.update_same, List.mem_cons]
        · rw [Function.update_noteq hgc]
          have hnm : ¬ g ∈ gb c :: (rowScan gb t (Function.update s (gb c) 1)).1 := by
            simp [List.mem_cons, hgc, hg]
          simp [hnm]
    · simp only [rowScan, if_neg h]
      exact ih s g

theorem rowScan_mem_zero (gb : ℕ → ℕ) (cs : List ℕ) : ∀ (s : ℕ → ℕ) (g : ℕ),
    g ∈ (rowScan gb cs s).1 → s g = 0 := by
  induction cs with
  | nil => intro s g hg; simp [rowScan] at hg
  | cons c t ih =>
    intro s g hg
    by_cases h : s (gb c) = 0
    · simp only [rowScan, if_pos h] at hg
      rcases List.mem_cons.mp hg with rfl | hg2
      · exact h
      · have h0 := ih (Function.update s (gb c) 1) g hg2
        by_cases hgc : g = gb c
        · subst hgc
          rw [Function.update_same] at h0
          exact absurd h0 one_ne_zero
        · rwa [Function.update_noteq hgc] at h0
    · simp only [rowScan, if_neg h] at hg
      exact ih s g hg

theorem clearRow_apply (r : List ℕ) : ∀ (t : ℕ → ℕ) (g : ℕ),
    clearRow t r g = if g ∈ r then 0 else t g := by
  induction r with
  | nil => intro t g; simp [clearRow]
  | cons a rest ih =>
    intro t g
    simp only [clearRow]
    rw [ih (Function.update t a 0) g]
    by_cases hg : g ∈ rest
    · simp [hg, List.mem_cons]
    · simp only [if_neg hg]
      by_cases hga : g = a
      · subst hga
        simp [Function.update_same, List.mem_cons]
      · rw [Function.update_noteq hga]
        have hnm : ¬ g ∈ a :: rest := by simp [List.mem_cons, hga, hg]
        simp [hnm]

theorem rowScan_restore (gb : ℕ → ℕ) (cs : List ℕ) (s : ℕ → ℕ) :
    clearRow (rowScan gb cs s).2 (rowScan gb cs s).1 = s := by
  funext g
  rw [clearRow_apply]
  by_cases hg : g ∈ (rowScan gb cs s).1
  · rw [if_pos hg]
    exact (rowScan_mem_zero gb cs s g hg).symm
  · rw [if_neg hg, rowScan_snd, if_neg hg]

theorem buildSupport_eq (gb : ℕ → ℕ) (rows : List (List ℕ)) (s : ℕ → ℕ) :
    buildSupport gb rows s = (rows.map (fun r => (rowScan gb r s).1), s) := by
  induction rows with
  | nil => simp [buildSupport]
  | cons r rs ih =>
    simp only [buildSupport, rowScan_restore, ih, List.map_cons]

theorem buildSupport_zero (gb : ℕ → ℕ) (rows : List (List ℕ)) :
    buildSupport gb rows (fun _ => 0)
      = (rows.map (fun r => dedupFirstOccurrence (r.map gb)), fun _ => 0) := by
  rw [buildSupport_eq]
  have hf : (fun r => (rowScan gb r (fun _ => 0)).1)
      = (fun r : List ℕ => dedupFirstOccurrence (r.map gb)) := by
    funext r
    exact rowScan_fst_eq gb r (fun _ => 0) [] (fun g => by simp)
  rw [hf]

theorem supportMatrix_rows_id (A_indices A_indptr : List ℕ) :
    (buildSupport (fun j => j) (csrRows A_indices A_indptr) (fun _ => 0)).1
      = (csrRows A_indices A_indptr).map dedupFirstOccurrence := by
  rw [buildSupport_zero]
  refine congrArg (List.map · (csrRows A_indices A_indptr)) ?_
  funext r
  rw [List.map_id' r]

/-- Claim C2: for the identity block mapping, the Block-Support Builder
returns, per row, the deduplicated (first-occurrence order) feature indices
of that row, with all-one data and cumulative-length `indptr`; the spec-side
rows are duplicate-free and have the same members as the input rows. -/
theorem claim_C2_support_identity (A_indices A_indptr : List ℕ) (n_blocks : ℕ) :
    supportMatrix A_indices A_indptr (fun j => j) n_blocks
      = (List.replicate
           (((csrRows A_indices A_indptr).map dedupFirstOccurrence).flatten.length) (1 : ℚ),
         ((csrRows A_indices A_indptr).map dedupFirstOccurrence).flatten,
         if A_indptr.length = 0 then []
         else List.scanl (fun a r => a + r.length) 0
           ((csrRows A_indices A_indptr).map dedupFirstOccurrence))
    ∧ (∀ r : List ℕ, (dedupFirstOccurrence r).Nodup)
    ∧ (∀ (r : List ℕ) (x : ℕ), x ∈ dedupFirstOccurrence r ↔ x ∈ r) := by
  refine ⟨?_, ?_, ?_⟩
  · simp only [supportMatrix, supportMatrix_rows_id]
  · intro r
    exact dedupFOAux_nodup r []
  · intro r x
    simpa [dedupFirstOccurrence] using dedupFOAux_mem x r []

/-- Claim C8: the reusable `seen_blocks` array is all zeros again at every
row boundary of the scan (after any prefix of the rows) and when the
builder returns. -/
theorem claim_C8_seen_restored (g_blocks : ℕ → ℕ) (rows : List (List ℕ)) (k b : ℕ) :
    (buildSupport g_blocks (rows.take k) (fun _ => 0)).2 b = 0
    ∧ (buildSupport g_blocks rows (fun _ => 0)).2 b = 0 := by
  constructor
  · rw [buildSupport_eq]
  · rw [buildSupport_eq]

theorem count_flatten_dedup (rows : List (List ℕ)) (j : ℕ) :
    ((rows.map dedupFirstOccurrence).flatten.count j) = touchCount rows j := by
  induction rows with
  | nil => simp [touchCount]
  | cons r rs ih =>
    have hcount : (dedupFirstOccurrence r).count j = if j ∈ r then 1 else 0 := by
      by_cases hj : j ∈ r
      · rw [if_pos hj]
        refine List.count_eq_one_of_mem (dedupFOAux_nodup r []) ?_
        have hm := (dedupFOAux_mem j r []).mpr ⟨hj, by simp⟩
        simpa [dedupFirstOccurrence] using hm
      · rw [if_neg hj]
        refine List.count_eq_zero.mpr ?_
        intro hc
        exact hj ((dedupFOAux_mem j r []).mp (by simpa [dedupFirstOccurrence] using hc)).1
    simp only [List.map_cons, List.flatten_cons, List.count_append, hcount, touchCount,
      List.countP_cons, ih]
    by_cases hj : j ∈ r
    · simp [touchCount, hj, Nat.add_comm]
    · simp [touchCount, hj]

theorem csrRows_length (indices indptr : List ℕ) :
    (csrRows indices indptr).length = indptr.length - 1 := by
  simp [csrRows]

/-- Claim C3: after the factory derives the degree vector, `d[j] == 0` iff
no sample touches block `j`, and otherwise `d[j] == n_samples / (number of
samples touching block j)` exactly. -/
theorem claim_C3_degree_vector (f : Loss) (g : Penalty) (nrm : (ℕ → ℚ) → ℚ)
    (P : KernelParams) (hP : _factory_sparse_SAGA f g nrm = Except.ok P) (j : ℕ) :
    (P.d j = 0 ↔ touchCount (csrRows f.A.indices f.A.indptr) j = 0)
    ∧ (touchCount (csrRows f.A.indices f.A.indptr) j ≠ 0 →
        P.d j = ((f.A.indptr.length - 1 : ℕ) : ℚ)
          / (touchCount (csrRows f.A.indices f.A.indptr) j : ℚ)) := by
  by_cases hsep : g.is_separable
  case neg => simp [_factory_sparse_SAGA, hsep] at hP
  case pos =>
  simp only [_factory_sparse_SAGA, if_pos hsep, Except.ok.injEq] at hP
  have hd : P.d = dVec (supportMatrix f.A.indices f.A.indptr (fun j => j) f.n_features).2.1
      (f.A.indptr.length - 1) := by
    rw [← hP]
    rfl
  have hidx : (supportMatrix f.A.indices f.A.indptr (fun j => j) f.n_features).2.1
      = ((csrRows f.A.indices f.A.indptr).map dedupFirstOccurrence).flatten := by
    simp only [supportMatrix, supportMatrix_rows_id]
  have hcnt : (supportMatrix f.A.indices f.A.indptr (fun j => j) f.n_features).2.1.count j
      = touchCount (csrRows f.A.indices f.A.indptr) j := by
    rw [hidx, count_flatten_dedup]
  rw [hd]
  unfold dVec
  rw [hcnt]
  set c := touchCount (csrRows f.A.indices f.A.indptr) j with hc
  constructor
  · constructor
    · intro h0
      by_contra hne
      rw [if_neg hne] at h0
      have hc1 : 1 ≤ c := Nat.one_le_iff_ne_zero.mpr hne
      have hcn : c ≤ f.A.indptr.length - 1 := by
        have := List.countP_le_length (fun r => decide (j ∈ r)) (l := csrRows f.A.indices f.A.indptr)
        rw [csrRows_length] at this
        exact this
      have hn1 : 1 ≤ f.A.indptr.length - 1 := le_trans hc1 hcn
      have hnum : ((f.A.indptr.length - 1 : ℕ) : ℚ) ≠ 0 := by
        exact_mod_cast Nat.one_le_iff_ne_zero.mp hn1
      have hden : ((c : ℕ) : ℚ) ≠ 0 := by
        exact_mod_cast hne
      exact div_ne_zero hnum hden h0
    · intro h0
      rw [if_pos h0]
  · intro hne
    rw [if_neg hne]

/- Lemmas on the per-sample kernel update. -/

theorem foldl_mul_comm (x : ℕ → ℚ) (row : List (ℕ × ℚ)) : ∀ acc : ℚ,
    row.foldl (fun a ca => a + x ca.1 * ca.2) acc
      = row.foldl (fun a ca => a + ca.2 * x ca.1) acc := by
  induction row with
  | nil => intro acc; rfl
  | cons ca t ih =>
    intro acc
    simp only [List.foldl_cons]
    rw [mul_comm]
    exact ih _

theorem foldl_update_nodup (x0 : ℕ → ℚ) (V : ℕ × ℚ → ℚ → ℚ) (row : List (ℕ × ℚ)) :
    ∀ xv : ℕ → ℚ, (row.map Prod.fst).Nodup → (∀ ca ∈ row, xv ca.1 = x0 ca.1) →
    row.foldl (fun v ca => Function.update v ca.1 (V ca (v ca.1))) xv
      = row.foldl (fun v ca => Function.update v ca.1 (V ca (x0 ca.1))) xv := by
  induction row with
  | nil => intro xv _ _; rfl
  | cons ca t ih =>
    intro xv hnd hag
    have hnd1 : (ca.1 :: t.map Prod.fst).Nodup := by
      simpa only [List.map_cons] using hnd
    have hnd2 := List.nodup_cons.mp hnd1
    simp only [List.foldl_cons]
    have hv : xv ca.1 = x0 ca.1 := hag ca (List.mem_cons_self _ _)
    rw [hv]
    refine ih _ hnd2.2 ?_
    intro cb hcb
    have hne : cb.1 ≠ ca.1 := by
      intro he
      exact hnd2.1 (he ▸ List.mem_map_of_mem Prod.fst hcb)
    rw [Function.update_noteq hne]
    exact hag cb (List.mem_cons_of_mem _ hcb)

/-- Claim C1: for every sample visit, the in-place kernel body computes
exactly the spec's formulas (prediction, partial gradient, prox update with
the corrected increment, gradient-average accumulation, memory refresh),
all reads being taken from the pre-visit state, provided the row's column
indices are distinct (as in a canonical CSR matrix). -/
theorem claim_C1_sample_update (P : KernelParams) (step_size : ℚ) (s : SagaState)
    (i : ℕ) (hnd : ((P.A.row i).map Prod.fst).Nodup) :
    sampleStep P step_size s i = sampleStepFromSpec P step_size s i := by
  simp only [sampleStep, sampleStepFromSpec]
  rw [foldl_mul_comm s.x (P.A.row i)]
  rw [foldl_update_nodup s.x
    (fun ca xc => P.prox (xc - step_size * ((P.partial_gradient
        (List.foldl (fun a ca => a + ca.2 * s.x ca.1) 0 (P.A.row i)) (P.b i)
        - s.memory_gradient i) * ca.2
      + P.d ca.1 * (s.gradient_average ca.1 + P.f_alpha * xc)))
      (step_size * P.d ca.1))
    (P.A.row i) s.x hnd (fun _ _ => rfl)]

/- Lemmas on the epoch loop and the stop flag. -/

theorem sampleStep_stop (P : KernelParams) (step_size : ℚ) (s : SagaState) (i : ℕ) :
    (sampleStep P step_size s i).stop = s.stop := rfl

theorem sampleLoop_stop (P : KernelParams) (step_size : ℚ) (perm : List ℕ) :
    ∀ s : SagaState, (sampleLoop P step_size perm s).stop = s.stop := by
  induction perm with
  | nil => intro s; rfl
  | cons i t ih =>
    intro s
    have h : sampleLoop P step_size (i :: t) s
        = sampleLoop P step_size t (sampleStep P step_size s i) := rfl
    rw [h, ih, sampleStep_stop]

theorem sampleLoop_x_old (P : KernelParams) (step_size : ℚ) (perm : List ℕ) :
    ∀ s : SagaState, (sampleLoop P step_size perm s).x_old = s.x_old := by
  induction perm with
  | nil => intro s; rfl
  | cons i t ih =>
    intro s
    have h : sampleLoop P step_size (i :: t) s
        = sampleLoop P step_size t (sampleStep P step_size s i) := rfl
    rw [h, ih]
    rfl

theorem runEpoch_stop_job_ne (P : KernelParams) (step_size tol : ℚ) (job_id : ℕ)
    (trace : Bool) (perm : List ℕ) (it : ℕ) (s : SagaState) (h : job_id ≠ 0) :
    (runEpoch P step_size tol job_id trace perm it s).stop = s.stop := by
  simp only [runEpoch, if_neg h]
  by_cases h1 : job_id = 1
  · simp only [if_pos h1]
    exact sampleLoop_stop P step_size perm s
  · simp only [if_neg h1]
    exact sampleLoop_stop P step_size perm s

theorem epochLoopGo_no_stop (P : KernelParams) (step_size tol : ℚ) (job_id : ℕ)
    (trace : Bool) (perms : ℕ → List ℕ) (hjob : job_id ≠ 0) :
    ∀ (k itDone : ℕ) (s : SagaState), s.stop = false →
      epochLoopGo P step_size tol job_id trace perms itDone s k
        = (itDone + k, runEpochsFrom P step_size tol job_id trace perms itDone k s) := by
  intro k
  induction k with
  | zero => intro itDone s _; simp [epochLoopGo, runEpochsFrom]
  | succ k ih =>
    intro itDone s hs
    have hstop2 : (runEpoch P step_size tol job_id trace (perms (itDone + 1))
        (itDone + 1) s).stop = false := by
      rw [runEpoch_stop_job_ne P step_size tol job_id trace _ _ s hjob, hs]
    simp only [epochLoopGo, hstop2, Bool.false_eq_true, if_false]
    rw [ih (itDone + 1) _ hstop2]
    have harith : itDone + 1 + k = itDone + (k + 1) := by omega
    rw [harith]
    rfl

theorem epochLoopGo_no_stop_flag (P : KernelParams) (step_size tol : ℚ) (job_id : ℕ)
    (trace : Bool) (perms : ℕ → List ℕ) :
    ∀ (k itDone : ℕ) (s : SagaState),
      (epochLoopGo P step_size tol job_id trace perms itDone s k).2.stop = false →
      epochLoopGo P step_size tol job_id trace perms itDone s k
        = (itDone + k, runEpochsFrom P step_size tol job_id trace perms itDone k s) := by
  intro k
  induction k with
  | zero => intro itDone s _; simp [epochLoopGo, runEpochsFrom]
  | succ k ih =>
    intro itDone s hfin
    by_cases hstop : (runEpoch P step_size tol job_id trace (perms (itDone + 1))
        (itDone + 1) s).stop = true
    · simp [epochLoopGo, hstop] at hfin
    · have hs2 : (runEpoch P step_size tol job_id trace (perms (itDone + 1))
          (itDone + 1) s).stop = false := by
        cases hb : (runEpoch P step_size tol job_id trace (perms (itDone + 1))
            (itDone + 1) s).stop
        · rfl
        · exact absurd hb hstop
      simp only [epochLoopGo, hs2, Bool.false_eq_true, if_false] at hfin ⊢
      rw [ih (itDone + 1) _ hfin]
      have harith : itDone + 1 + k = itDone + (k + 1) := by omega
      rw [harith]
      rfl

/-- Claim C4 (amended): for every call — any `job_id`, the flag starting
false — in which the stop flag is never set (behaviorally: the run ends
with the flag still false, equivalent to never-raised since an epoch never
lowers it), the epoch kernel executes exactly `max_iter - 1` epochs — not
`max_iter` — and returns that count together with the final state (which
carries the last certificate). -/
theorem claim_C4_amended_epoch_count (P : KernelParams) (x mg ga : ℕ → ℚ)
    (step_size : ℚ) (max_iter job_id : ℕ) (tol : ℚ) (trace : Bool)
    (perms : ℕ → List ℕ)
    (hnostop : (epoch_iteration_template P x mg ga step_size max_iter job_id tol false
        trace perms).2.stop = false) :
    epoch_iteration_template P x mg ga step_size max_iter job_id tol false trace perms
      = (max_iter - 1,
         runEpochsFrom P step_size tol job_id trace perms 0 (max_iter - 1)
           (init_saga_state x mg ga false job_id trace)) := by
  unfold epoch_iteration_template at hnostop ⊢
  rw [epochLoopGo_no_stop_flag P step_size tol job_id trace perms (max_iter - 1) 0 _ hnostop]
  rw [Nat.zero_add]

/-- Counterexample to claim C4 as stated: a call with `max_iter = 3` and the
stop flag never set executes and reports 2 epochs, not `max_iter = 3`. -/
theorem claim_C4_counterexample :
    (epoch_iteration_template P3c (fun _ => 0) (fun _ => 0) (fun _ => 0) 1 3 2 1 false
        false (fun _ => [])).1 = 2
    ∧ (epoch_iteration_template P3c (fun _ => 0) (fun _ => 0) (fun _ => 0) 1 3 2 1 false
        false (fun _ => [])).1 ≠ 3 := by
  constructor
  · rfl
  · decide

theorem claim_C4_witness :
    (epoch_iteration_template P3c (fun _ => 0) (fun _ => 0) (fun _ => 0) 1 3 0 0 false
        false (fun _ => [])).2.stop = false
    ∧ epoch_iteration_template P3c (fun _ => 0) (fun _ => 0) (fun _ => 0) 1 3 0 0 false
        false (fun _ => [])
      = (2, runEpochsFrom P3c 1 0 0 false (fun _ => []) 0 2
          (init_saga_state (fun _ => 0) (fun _ => 0) (fun _ => 0) false 0 false)) := by
  have hep : ∀ (it : ℕ) (s : SagaState),
      (runEpoch P3c 1 0 0 false [] it s).stop = s.stop := by
    intro it s
    have hlt : ¬ epochCert P3c 1 (sampleLoop P3c 1 [] s) < 0 := by
      simp [epochCert, sampleLoop, P3c, nrmc]
    simp only [runEpoch, sampleLoop, List.foldl_nil] at hlt ⊢
    simp [hlt]
  have hstop : (epoch_iteration_template P3c (fun _ => 0) (fun _ => 0) (fun _ => 0) 1 3 0
      0 false false (fun _ => [])).2.stop = false := by
    show (epochLoopGo P3c 1 0 0 false (fun _ => []) 0
        (init_saga_state (fun _ => 0) (fun _ => 0) (fun _ => 0) false 0 false) 2).2.stop
      = false
    simp only [epochLoopGo, hep, Bool.false_eq_true, if_false, init_saga_state]
  refine ⟨hstop, ?_⟩
  have h := claim_C4_amended_epoch_count P3c (fun _ => 0) (fun _ => 0) (fun _ => 0) 1 3 0 0
    false (fun _ => []) hstop
  simpa using h

theorem runEpoch_stop_mono (P : KernelParams) (step_size tol : ℚ) (job_id : ℕ)
    (trace : Bool) (perm : List ℕ) (it : ℕ) (s : SagaState) (hs : s.stop = true) :
    (runEpoch P step_size tol job_id trace perm it s).stop = true := by
  by_cases h0 : job_id = 0
  · simp only [runEpoch, if_pos h0]
    by_cases hc : epochCert P step_size
        (if trace = true then
          { sampleLoop P step_size perm s with
            trace_x := (sampleLoop P step_size perm s).trace_x
              ++ [(it, (sampleLoop P step_size perm s).x)] }
         else sampleLoop P step_size perm s) < tol
    · simp only [if_pos hc]
    · simp only [if_neg hc]
      by_cases ht : trace = true
      · simp only [if_pos ht]
        rw [sampleLoop_stop P step_size perm s]
        exact hs
      · simp only [if_neg ht]
        rw [sampleLoop_stop P step_size perm s]
        exact hs
  · rw [runEpoch_stop_job_ne P step_size tol job_id trace perm it s h0]
    exact hs

theorem runEpoch_stop_new_iff (P : KernelParams) (step_size tol : ℚ) (job_id : ℕ)
    (trace : Bool) (perm : List ℕ) (it : ℕ) (s : SagaState) (hs : s.stop = false) :
    ((runEpoch P step_size tol job_id trace perm it s).stop = true
      ↔ job_id = 0 ∧ epochCert P step_size (sampleLoop P step_size perm s) < tol) := by
  by_cases h0 : job_id = 0
  · simp only [runEpoch, if_pos h0]
    have hcert : ∀ b : Bool, epochCert P step_size
        (if b = true then
          { sampleLoop P step_size perm s with
            trace_x := (sampleLoop P step_size perm s).trace_x
              ++ [(it, (sampleLoop P step_size perm s).x)] }
         else sampleLoop P step_size perm s)
        = epochCert P step_size (sampleLoop P step_size perm s) := by
      intro b
      by_cases hb : b = true
      · simp only [if_pos hb]
        rfl
      · simp only [if_neg hb]
    rw [hcert trace]
    by_cases hc : epochCert P step_size (sampleLoop P step_size perm s) < tol
    · simp only [if_pos hc]
      exact iff_of_true (by trivial) ⟨h0, hc⟩
    · simp only [if_neg hc]
      refine iff_of_false ?_ (fun hh => hc hh.2)
      by_cases ht : trace = true
      · simp only [if_pos ht]
        rw [sampleLoop_stop P step_size perm s, hs]
        simp
      · simp only [if_neg ht]
        rw [sampleLoop_stop P step_size perm s, hs]
        simp
  · rw [runEpoch_stop_job_ne P step_size tol job_id trace perm it s h0, hs]
    refine iff_of_false (by simp) (fun hh => h0 hh.1)

/-- Claim C9: the stop flag is a one-way latch.  It is allocated false by
the orchestrator; an epoch never resets a raised flag; from a lowered flag
it is raised exactly by the `job_id == 0` worker when its certificate falls
below `tol`; and a worker observing the raised flag at an epoch boundary
exits its loop without starting another epoch. -/
theorem claim_C9_stop_latch (P : KernelParams) (step_size tol : ℚ) (job_id : ℕ)
    (trace : Bool) (perm : List ℕ) (it : ℕ) (s : SagaState) (perms : ℕ → List ℕ)
    (itDone k : ℕ) :
    minimizeStopInit = false
    ∧ (s.stop = true → (runEpoch P step_size tol job_id trace perm it s).stop = true)
    ∧ (s.stop = false →
        ((runEpoch P step_size tol job_id trace perm it s).stop = true
          ↔ job_id = 0 ∧ epochCert P step_size (sampleLoop P step_size perm s) < tol))
    ∧ ((runEpoch P step_size tol job_id trace (perms (itDone + 1)) (itDone + 1) s).stop
          = true →
        epochLoopGo P step_size tol job_id trace perms itDone s (k + 1)
          = (itDone + 1,
             runEpoch P step_size tol job_id trace (perms (itDone + 1)) (itDone + 1) s)) := by
  refine ⟨rfl, ?_, ?_, ?_⟩
  · exact runEpoch_stop_mono P step_size tol job_id trace perm it s
  · exact runEpoch_stop_new_iff P step_size tol job_id trace perm it s
  · intro hstop
    simp only [epochLoopGo, hstop, if_true]

theorem claim_C9_witness :
    (runEpoch P3c 1 1 5 false [] 1 sTrueC).stop = true
    ∧ ((runEpoch P3c 1 1 0 false [] 1 s0c).stop = true
        ↔ 0 = 0 ∧ epochCert P3c 1 (sampleLoop P3c 1 [] s0c) < 1)
    ∧ epochLoopGo P3c 1 1 5 false (fun _ => []) 0 sTrueC 1
        = (1, runEpoch P3c 1 1 5 false [] 1 sTrueC) := by
  refine ⟨(claim_C9_stop_latch P3c 1 1 5 false [] 1 sTrueC (fun _ => []) 0 0).2.1 rfl,
          (claim_C9_stop_latch P3c 1 1 0 false [] 1 s0c (fun _ => []) 0 0).2.2.1 rfl,
          ?_⟩
  exact (claim_C9_stop_latch P3c 1 1 5 false [] 1 sTrueC (fun _ => []) 0 0).2.2.2 (by decide)

/- Lemmas on the gradient-average recomputation (job 1). -/

theorem foldl_accum_apply (val : ℕ × ℚ → ℚ) (row : List (ℕ × ℚ)) :
    ∀ (gv : ℕ → ℚ) (jj : ℕ),
    (row.foldl (fun gv2 ca => Function.update gv2 ca.1 (gv2 ca.1 + val ca)) gv) jj
      = gv jj + (row.map (fun ca => if ca.1 = jj then val ca else 0)).sum := by
  induction row with
  | nil => intro gv jj; simp
  | cons ca t ih =>
    intro gv jj
    simp only [List.foldl_cons, List.map_cons, List.sum_cons]
    rw [ih]
    by_cases h : ca.1 = jj
    · rw [if_pos h, Function.update_apply, if_pos h.symm, h]
      ring
    · rw [if_neg h, Function.update_apply, if_neg (fun hh => h hh.symm)]
      ring

theorem foldl_rows_apply (P : KernelParams) (mg : ℕ → ℚ) (l : List ℕ) :
    ∀ (gv : ℕ → ℚ) (jj : ℕ),
    (l.foldl (fun g i => (P.A.row i).foldl (fun gv2 ca =>
        Function.update gv2 ca.1 (gv2 ca.1 + mg i * ca.2 / (P.n_samples : ℚ))) g) gv) jj
      = gv jj + (l.map (fun i => ((P.A.row i).map (fun ca =>
          if ca.1 = jj then mg i * ca.2 / (P.n_samples : ℚ) else 0)).sum)).sum := by
  induction l with
  | nil => intro gv jj; simp
  | cons i t ih =>
    intro gv jj
    simp only [List.foldl_cons, List.map_cons, List.sum_cons]
    rw [ih, foldl_accum_apply (fun ca => mg i * ca.2 / (P.n_samples : ℚ)) (P.A.row i) gv jj]
    ring

/-- Claim C6: after the sample loop of an epoch, the `job_id == 1` worker
overwrites the whole `gradient_average` with the vector whose entry `jj` is
the sum over all samples `i` and all nonzero columns of row `i` of
`memory_gradient[i] * A[i,j] / n_samples` (with `memory_gradient` as left
by the sample loop), provided the epoch order is a permutation of all
samples. -/
theorem claim_C6_recompute (P : KernelParams) (step_size tol : ℚ) (trace : Bool)
    (perm : List ℕ) (it : ℕ) (s : SagaState)
    (hperm : perm.Perm (List.range P.n_samples)) (jj : ℕ) :
    (runEpoch P step_size tol 1 trace perm it s).gradient_average jj
      = grad_average_from_spec P (sampleLoop P step_size perm s).memory_gradient jj := by
  have h1 : (runEpoch P step_size tol 1 trace perm it s).gradient_average
      = recompute_grad_average P (sampleLoop P step_size perm s).memory_gradient perm := by
    simp [runEpoch]
  rw [h1]
  unfold recompute_grad_average
  rw [foldl_rows_apply P (sampleLoop P step_size perm s).memory_gradient perm (fun _ => 0) jj]
  rw [zero_add]
  unfold grad_average_from_spec
  exact (hperm.map (fun i => ((P.A.row i).map (fun ca =>
    if ca.1 = jj then (sampleLoop P step_size perm s).memory_gradient i * ca.2
      / (P.n_samples : ℚ) else 0)).sum)).sum_eq

theorem claim_C6_witness :
    List.Perm [1, 0] (List.range P3c.n_samples)
    ∧ (runEpoch P3c 1 1 1 false [1, 0] 1 s0c).gradient_average 0
        = grad_average_from_spec P3c (sampleLoop P3c 1 [1, 0] s0c).memory_gradient 0 :=
  ⟨by decide, claim_C6_recompute P3c 1 1 false [1, 0] 1 s0c (by decide) 0⟩

/- Lemmas on the orchestrator. -/

theorem foldl_fixed {α : Type} {β : Type} (F : α → β → α) (h : ∀ a b, F a b = a) :
    ∀ (l : List β) (a : α), l.foldl F a = a := by
  intro l
  induction l with
  | nil => intro a; rfl
  | cons b t ih =>
    intro a
    rw [List.foldl_cons, h a b]
    exact ih a

theorem runWorkers_zero_epochs (P : KernelParams) (step tol : ℚ) (max_iter : ℕ)
    (trace : Bool) (perms : ℕ → ℕ → List ℕ) (n_jobs : ℕ) (sh : Shared)
    (hmax : max_iter ≤ 1) :
    runWorkers P step tol max_iter trace perms n_jobs sh = ((0, none), sh) := by
  have hk : max_iter - 1 = 0 := Nat.sub_eq_zero_of_le hmax
  unfold runWorkers epoch_iteration_template
  rw [hk]
  show (((epochLoopGo P step tol 0 trace (perms 0) 0
      (init_saga_state sh.x sh.memory_gradient sh.gradient_average sh.stop 0 trace) 0).1,
    (epochLoopGo P step tol 0 trace (perms 0) 0
      (init_saga_state sh.x sh.memory_gradient sh.gradient_average sh.stop 0 trace) 0).2.cert),
    List.foldl (fun (acc : Shared) (k : ℕ) =>
      (epochLoopGo P step tol (k + 1) trace (perms (k + 1)) 0
        (init_saga_state acc.x acc.memory_gradient acc.gradient_average acc.stop
          (k + 1) trace) 0).2.toShared)
      ((epochLoopGo P step tol 0 trace (perms 0) 0
        (init_saga_state sh.x sh.memory_gradient sh.gradient_average sh.stop 0
          trace) 0).2.toShared)
      (List.range (n_jobs - 1))) = ((0, none), sh)
  rw [foldl_fixed (fun (acc : Shared) (k : ℕ) =>
    (epochLoopGo P step tol (k + 1) trace (perms (k + 1)) 0
      (init_saga_state acc.x acc.memory_gradient acc.gradient_average acc.stop
        (k + 1) trace) 0).2.toShared) (fun _ _ => rfl)]
  rfl

/-- Claim C5 (amended): a non-separable penalty makes the solve raise the
unsupported-configuration error before any worker is launched and before
the `memory_gradient`, `gradient_average`, trace and stop-flag buffers are
allocated; the decision vector `x`, however, is already initialised before
the check fires. -/
theorem claim_C5_amended_fail_fast (f : Loss) (g : Penalty) (x0 : Option (ℕ → ℚ))
    (step_size : ℚ) (n_jobs max_iter : ℕ) (tol : ℚ) (trace : Bool)
    (nrm : (ℕ → ℚ) → ℚ) (perms : ℕ → ℕ → List ℕ) (hsep : g.is_separable = false) :
    minimize_SAGA f (some g) x0 step_size n_jobs max_iter tol trace nrm perms
      = ([Ev.allocX, Ev.raiseNotImplemented], Except.error ())
    ∧ ((minimize_SAGA f (some g) x0 step_size n_jobs max_iter tol trace nrm
          perms).1.filter isLaunch = [])
    ∧ ((minimize_SAGA f (some g) x0 step_size n_jobs max_iter tol trace nrm
          perms).1.filter isSharedAlloc = [Ev.allocX]) := by
  have hfac : _factory_sparse_SAGA f g nrm = Except.error () := by
    simp [_factory_sparse_SAGA, hsep]
  refine ⟨?_, ?_, ?_⟩ <;> simp [minimize_SAGA, hfac, isLaunch, isSharedAlloc]

/-- Counterexample to claim C5 as stated: on a concrete non-separable
penalty the error is raised, but the event trace of the solve contains the
allocation of the shared decision vector `x` before the raise, so a shared
buffer is allocated before the error fires. -/
theorem claim_C5_counterexample :
    ((minimize_SAGA fc (some gNonSepC) none 1 1 10 1 false nrmc
        (fun _ _ => [])).1.filter isSharedAlloc ≠ [])
    ∧ (minimize_SAGA fc (some gNonSepC) none 1 1 10 1 false nrmc
        (fun _ _ => [])).2 = Except.error ()
    ∧ ((minimize_SAGA fc (some gNonSepC) none 1 1 10 1 false nrmc
        (fun _ _ => [])).1.filter isSharedAlloc = [Ev.allocX]) := by
  refine ⟨by decide, rfl, by decide⟩

theorem claim_C5_witness :
    gNonSepC.is_separable = false
    ∧ minimize_SAGA fc (some gNonSepC) none 1 2 7 1 false nrmc (fun _ _ => [])
        = ([Ev.allocX, Ev.raiseNotImplemented], Except.error ())
    ∧ ((minimize_SAGA fc (some gNonSepC) none 1 2 7 1 false nrmc
          (fun _ _ => [])).1.filter isLaunch = [])
    ∧ ((minimize_SAGA fc (some gNonSepC) none 1 2 7 1 false nrmc
          (fun _ _ => [])).1.filter isSharedAlloc = [Ev.allocX]) :=
  ⟨rfl, claim_C5_amended_fail_fast fc gNonSepC none 1 2 7 1 false nrmc (fun _ _ => []) rfl⟩

/-- Claim C7: the returned success flag is true exactly when the
certificate read back from the `job_id == 0` worker is strictly below
`tol`; exhausting the epochs without convergence is not an error — the
solve still returns a result carrying the final certificate and iteration
count from that worker. -/
theorem claim_C7_success_iff (f : Loss) (g : Option Penalty) (x0 : Option (ℕ → ℚ))
    (step_size : ℚ) (n_jobs max_iter : ℕ) (tol : ℚ) (trace : Bool)
    (nrm : (ℕ → ℚ) → ℚ) (perms : ℕ → ℕ → List ℕ)
    (hsep : (g.getD dummyProx).is_separable = true) :
    ∃ (P : KernelParams) (r : OptResult) (sh : Shared),
      _factory_sparse_SAGA f (g.getD dummyProx) nrm = Except.ok P
      ∧ (minimize_SAGA f g x0 step_size n_jobs max_iter tol trace nrm perms).2
          = Except.ok (r, sh)
      ∧ (r.success = true ↔ certLt r.certificate tol = true)
      ∧ r.nit = (runWorkers P (stepOf step_size f) tol max_iter trace perms n_jobs
          (sharedInit (initX x0))).1.1
      ∧ r.certificate = (runWorkers P (stepOf step_size f) tol max_iter trace perms
          n_jobs (sharedInit (initX x0))).1.2 := by
  refine ⟨factoryParams f (g.getD dummyProx) nrm,
    { x := (runWorkers (factoryParams f (g.getD dummyProx) nrm) (stepOf step_size f)
        tol max_iter trace perms n_jobs (sharedInit (initX x0))).2.x,
      success := certLt (runWorkers (factoryParams f (g.getD dummyProx) nrm)
        (stepOf step_size f) tol max_iter trace perms n_jobs
        (sharedInit (initX x0))).1.2 tol,
      nit := (runWorkers (factoryParams f (g.getD dummyProx) nrm) (stepOf step_size f)
        tol max_iter trace perms n_jobs (sharedInit (initX x0))).1.1,
      certificate := (runWorkers (factoryParams f (g.getD dummyProx) nrm)
        (stepOf step_size f) tol max_iter trace perms n_jobs
        (sharedInit (initX x0))).1.2 },
    (runWorkers (factoryParams f (g.getD dummyProx) nrm) (stepOf step_size f) tol
      max_iter trace perms n_jobs (sharedInit (initX x0))).2,
    ?_, ?_, Iff.rfl, rfl, rfl⟩
  · simp [_factory_sparse_SAGA, hsep]
  · simp only [minimize_SAGA, _factory_sparse_SAGA, hsep, if_true]

theorem claim_C7_witness :
    ((some gSepC).getD dummyProx).is_separable = true
    ∧ ∃ (P : KernelParams) (r : OptResult) (sh : Shared),
        _factory_sparse_SAGA fc ((some gSepC).getD dummyProx) nrmc = Except.ok P
        ∧ (minimize_SAGA fc (some gSepC) none 1 1 1 1 false nrmc (fun _ _ => [])).2
            = Except.ok (r, sh)
        ∧ (r.success = true ↔ certLt r.certificate 1 = true)
        ∧ r.nit = (runWorkers P (stepOf 1 fc) 1 1 false (fun _ _ => []) 1
            (sharedInit (initX none))).1.1
        ∧ r.certificate = (runWorkers P (stepOf 1 fc) 1 1 false (fun _ _ => []) 1
            (sharedInit (initX none))).1.2 :=
  ⟨rfl, claim_C7_success_iff fc (some gSepC) none 1 1 1 1 false nrmc (fun _ _ => []) rfl⟩

/-- Claim C10: with `max_iter ≤ 1` the kernel executes zero epochs and the
solver returns iteration count 0, an infinite certificate (modelled
`none`), `success = false`, the initial point as `x`, and untouched
(all-zero) `memory_gradient` and `gradient_average` buffers. -/
theorem claim_C10_no_epochs (f : Loss) (g : Option Penalty) (x0 : Option (ℕ → ℚ))
    (step_size : ℚ) (n_jobs max_iter : ℕ) (tol : ℚ) (trace : Bool)
    (nrm : (ℕ → ℚ) → ℚ) (perms : ℕ → ℕ → List ℕ)
    (hsep : (g.getD dummyProx).is_separable = true) (hmax : max_iter ≤ 1) :
    ∃ (r : OptResult) (sh : Shared),
      (minimize_SAGA f g x0 step_size n_jobs max_iter tol trace nrm perms).2
          = Except.ok (r, sh)
      ∧ r.nit = 0 ∧ r.certificate = none ∧ r.success = false
      ∧ r.x = initX x0 ∧ sh.x = initX x0
      ∧ sh.memory_gradient = (fun _ => 0) ∧ sh.gradient_average = (fun _ => 0) := by
  have hrw : ∀ P : KernelParams,
      runWorkers P (stepOf step_size f) tol max_iter trace perms n_jobs
        (sharedInit (initX x0)) = ((0, none), sharedInit (initX x0)) :=
    fun P => runWorkers_zero_epochs P (stepOf step_size f) tol max_iter trace perms
      n_jobs (sharedInit (initX x0)) hmax
  simp only [minimize_SAGA, _factory_sparse_SAGA, hsep, if_true, hrw]
  exact ⟨_, _, rfl, rfl, rfl, rfl, rfl, rfl, rfl, rfl⟩

theorem claim_C10_witness :
    ((some gSepC).getD dummyProx).is_separable = true ∧ (1 : ℕ) ≤ 1
    ∧ ∃ (r : OptResult) (sh : Shared),
        (minimize_SAGA fc (some gSepC) (some (fun _ => 5)) 1 2 1 1 false nrmc
            (fun _ _ => [])).2 = Except.ok (r, sh)
        ∧ r.nit = 0 ∧ r.certificate = none ∧ r.success = false
        ∧ r.x = initX (some (fun _ => 5)) ∧ sh.x = initX (some (fun _ => 5))
        ∧ sh.memory_gradient = (fun _ => 0) ∧ sh.gradient_average = (fun _ => 0) :=
  ⟨rfl, by decide,
   claim_C10_no_epochs fc (some gSepC) (some (fun _ => 5)) 1 2 1 1 false nrmc
     (fun _ _ => []) rfl (by decide)⟩

theorem claim_C1_witness :
    ((P3c.A.row 0).map Prod.fst).Nodup
    ∧ sampleStep P3c 1 s0c 0 = sampleStepFromSpec P3c 1 s0c 0 :=
  ⟨by decide, claim_C1_sample_update P3c 1 s0c 0 (by decide)⟩

theorem claim_C3_witness :
    _factory_sparse_SAGA fc gSepC nrmc = Except.ok P3c
    ∧ ((P3c.d 1 = 0 ↔ touchCount (csrRows fc.A.indices fc.A.indptr) 1 = 0)
       ∧ (touchCount (csrRows fc.A.indices fc.A.indptr) 1 ≠ 0 →
           P3c.d 1 = ((fc.A.indptr.length - 1 : ℕ) : ℚ)
             / (touchCount (csrRows fc.A.indices fc.A.indptr) 1 : ℚ))) :=
  ⟨rfl, claim_C3_degree_vector fc gSepC nrmc P3c rfl 1⟩

end CoptStochastic
